import Mathlib

/-!
Image-Metadata-Listing: a shallow embedding of `src/main.cpp`.

A `std::string` is modelled as a `List Char`, one list element per `char`.
Index variables of type `size_t` are natural numbers; `string::npos` is
`Option.none`.  No arithmetic of the program comes near the 64-bit limit,
because every index is bounded by twice the length of a string plus two.

A run of the program has one of three outcomes (`Outcome`): it returns a
value, it reads `patternLower[p]` with `p` beyond the terminator of the
string (undefined behaviour in C++), or the model's loop budget is used up.
-/

namespace ImageMetadataListing

/-- Outcome of running a piece of the program. -/
inductive Outcome (α : Type) where
  /-- The code returned the value. -/
  | value (a : α)
  /-- The code read `patternLower[p]` with `p > patternLower.length()`. -/
  | outOfRange
  /-- The loop budget of the model was used up before the loop ended. -/
  | outOfFuel
  deriving DecidableEq, Repr

/-- Sequencing of outcomes: the first outcome that is not a value ends the run. -/
def Outcome.bind {α β : Type} : Outcome α → (α → Outcome β) → Outcome β
  | .value a, f => f a
  | .outOfRange, _ => .outOfRange
  | .outOfFuel, _ => .outOfFuel

/-- The struct `imageMetadata` (lines 18-21). -/
structure imageMetadata where
  captureDate : List Char
  cameraModel : List Char
  deriving DecidableEq, Repr

/-- The struct `fileMatch` (lines 24-31). -/
structure fileMatch where
  filename : List Char
  metadata : imageMetadata
  matchedByName : Bool
  matchedByDate : Bool
  matchedByModel : Bool
  deriving DecidableEq, Repr

/-- The function `endsWith` (lines 33-42): `str.compare(pos, n, suffix) == 0` with
`pos = str.length() - suffix.length()` compares the last `n` characters of `str`
with `suffix`. -/
def endsWith (str suffix : List Char) : Bool :=
  if str.length ≥ suffix.length then
    decide (str.drop (str.length - suffix.length) = suffix)
  else
    false

/-- The C library function `tolower` in the "C" locale (the program never calls
`setlocale`): the letters `A`..`Z` go to `a`..`z`, every other character stays. -/
def tolower (c : Char) : Char :=
  if 65 ≤ c.toNat ∧ c.toNat ≤ 90 then Char.ofNat (c.toNat + 32) else c

/-- The function `toLower` (lines 43-50). -/
def toLower (str : List Char) : List Char :=
  str.map tolower

/-- The function `isJpeg` (lines 51-57). -/
def isJpeg (filename : List Char) : Bool :=
  let lower := toLower filename
  endsWith lower ".jpg".toList || endsWith lower ".jpeg".toList

/-- The function `isEqual` (lines 58-62). -/
def isEqual (a b : Char) : Bool :=
  decide (a = b)

/-- Reading `s[i]` of a `std::string`: the character for `i < s.length()`, the
terminator `'\0'` for `i = s.length()`, and no defined value beyond that. -/
def charAt (s : List Char) (i : Nat) : Option Char :=
  if i < s.length then s.get? i
  else if i = s.length then some (Char.ofNat 0)
  else none

/-- The local variables of the scan loop of `matchWildcard` (lines 79-82);
`starIdx = none` stands for `string::npos`. -/
structure ScanState where
  t : Nat
  p : Nat
  starIdx : Option Nat
  matchIdx : Nat
  deriving DecidableEq, Repr

/-- Result of one pass through the body of the scan loop. -/
inductive ScanStep where
  /-- The body completed; the loop test is evaluated next. -/
  | next (s : ScanState)
  /-- The `return false` of line 100. -/
  | returnFalse
  /-- The condition of line 85 read `patternLower[p]` with `p > length`. -/
  | outOfRange
  deriving DecidableEq, Repr

/-- The then-branch of line 85 (lines 86-92): a `*` at `p` is recorded and skipped,
and then, star or not, both `p` and `t` are advanced. -/
def advance (isStar : Bool) (s : ScanState) : ScanState :=
  if isStar then
    { t := s.t + 1, p := s.p + 1 + 1, starIdx := some s.p, matchIdx := s.t }
  else
    { s with t := s.t + 1, p := s.p + 1 }

/-- The else-branches of the loop body (lines 94-101). -/
def mismatch (s : ScanState) : ScanStep :=
  match s.starIdx with
  | some star => .next { s with p := star + 1, matchIdx := s.matchIdx + 1, t := s.matchIdx + 1 }
  | none => .returnFalse

/-- One pass through the body of `while (t < strLower.length())` (lines 85-101), for a
state with `t < strLower.length()`.  The condition of line 85 is
`(p < len && isEqual(pat[p], str[t])) || pat[p] == '*'`: the second operand is
evaluated only when the first is false, and it reads `pat[p]` whatever `p` is. -/
def scanBody (patternLower strLower : List Char) (s : ScanState) : ScanStep :=
  let c := strLower.getD s.t (Char.ofNat 0)
  if s.p < patternLower.length ∧ isEqual (patternLower.getD s.p (Char.ofNat 0)) c = true then
    .next (advance (decide (patternLower.getD s.p (Char.ofNat 0) = '*')) s)
  else
    match charAt patternLower s.p with
    | none => .outOfRange
    | some x => if x = '*' then .next (advance true s) else mismatch s

/-- The loop `while (t < strLower.length())` of lines 84-102, run for at most `fuel`
passes.  `value (some s)` is the state in which the loop test failed,
`value none` is the `return false` of line 100. -/
def scanLoop (patternLower strLower : List Char) : Nat → ScanState → Outcome (Option ScanState)
  | 0, _ => .outOfFuel
  | fuel + 1, s =>
    if s.t < strLower.length then
      match scanBody patternLower strLower s with
      | .next s' => scanLoop patternLower strLower fuel s'
      | .returnFalse => .value none
      | .outOfRange => .outOfRange
    else
      .value (some s)

/-- The loop of lines 104-106, `while (p < len && pat[p] == '*') p++`: the pattern
pointer moves over the run of `*` that starts at `p`. -/
def skipStars (patternLower : List Char) (p : Nat) : Nat :=
  p + ((patternLower.drop p).takeWhile (fun c => decide (c = '*'))).length

/-- The number of passes granted to the scan loop for a candidate of length `n`. -/
def scanFuel (n : Nat) : Nat := (n + 1) * (n + 1)

/-- The function `matchWildcard` (lines 64-108). -/
def matchWildcard (pattern str : List Char) : Outcome Bool :=
  let strLower := toLower str
  let patternLower := toLower pattern
  if pattern.isEmpty then .value true
  else if pattern = "*".toList then .value true
  else
    match scanLoop patternLower strLower (scanFuel strLower.length)
        { t := 0, p := 0, starIdx := none, matchIdx := 0 } with
    | .value (some s) => .value (decide (skipStars patternLower s.p = patternLower.length))
    | .value none => .value false
    | .outOfRange => .outOfRange
    | .outOfFuel => .outOfFuel

/-- The function `trimTimeFromDate` (lines 130-139). -/
def trimTimeFromDate (fullDateTime : List Char) : List Char :=
  if fullDateTime.length ≥ 10 then fullDateTime.take 10 else fullDateTime

/-- The two EXIF values that `matchMetadata` asks libexif for, each as returned by
`exifTagGetValue` (lines 109-127): the text of the tag, or the empty string when
the tag is absent. -/
structure ExifFields where
  dateTime : List Char
  model : List Char
  deriving DecidableEq, Repr

/-- One entry delivered by `fs::recursive_directory_iterator`: whether it is a
regular file, `entry.path().filename().string()`, and what
`exif_data_new_from_file` finds in it (`none` for a null pointer). -/
structure DirEntry where
  isRegularFile : Bool
  filename : List Char
  exif : Option ExifFields
  deriving DecidableEq, Repr

/-- The walk of a directory tree: the entries delivered, in order, until the iterator
ended or threw, and `e.what()` when it threw `fs::filesystem_error`. -/
structure Traversal where
  entries : List DirEntry
  error : Option (List Char)
  deriving DecidableEq, Repr

/-- The function `matchMetadata` (lines 141-156); `none` is its `return false`, and
`some metadata` is `return true` with the out-parameter filled in. -/
def matchMetadata (entry : DirEntry) : Option imageMetadata :=
  match entry.exif with
  | none => none
  | some exifData =>
    some { captureDate := trimTimeFromDate exifData.dateTime, cameraModel := exifData.model }

/-- The name gate of line 170, `!nameMatch.empty() && !matchWildcard(nameMatch, filename)`:
`value true` when the file is skipped.  The matcher runs only for a non-empty filter. -/
def nameGateSkips (nameMatch filename : List Char) : Outcome Bool :=
  if nameMatch.isEmpty then .value false
  else (matchWildcard nameMatch filename).bind fun m => .value (!m)

/-- The variable `meetsCriteria` after lines 178-185.  In
`meetsCriteria && matchWildcard(...)` the matcher runs only when `meetsCriteria`
is still true. -/
def meetsCriteria (dateMatch modelMatch : List Char) (metadata : imageMetadata) : Outcome Bool :=
  let afterDate : Bool :=
    if dateMatch.isEmpty then true else (true && decide (dateMatch = metadata.captureDate))
  if modelMatch.isEmpty then .value afterDate
  else if afterDate then matchWildcard modelMatch metadata.cameraModel
  else .value false

/-- One pass through the body of the loop of `findFile` (lines 165-195): `value none`
when the entry is skipped, `value (some file)` when `file` is pushed back. -/
def visitEntry (dateMatch modelMatch nameMatch : List Char) (entry : DirEntry) :
    Outcome (Option fileMatch) :=
  if !entry.isRegularFile then .value none
  else
    let filename := toLower entry.filename
    if !isJpeg filename then .value none
    else
      (nameGateSkips nameMatch filename).bind fun skip =>
        if skip then .value none
        else
          match matchMetadata entry with
          | none => .value none
          | some metadata =>
            (meetsCriteria dateMatch modelMatch metadata).bind fun meets =>
              if meets then
                .value (some
                  { filename := filename
                    metadata := metadata
                    matchedByDate := !dateMatch.isEmpty
                    matchedByModel := !modelMatch.isEmpty
                    matchedByName := !nameMatch.isEmpty })
              else .value none

/-- The loop of `findFile` over the entries still to come, with the vector `files`
built so far. -/
def findFileLoop (dateMatch modelMatch nameMatch : List Char) :
    List DirEntry → List fileMatch → Outcome (List fileMatch)
  | [], files => .value files
  | entry :: rest, files =>
    (visitEntry dateMatch modelMatch nameMatch entry).bind fun r =>
      match r with
      | none => findFileLoop dateMatch modelMatch nameMatch rest files
      | some file => findFileLoop dateMatch modelMatch nameMatch rest (files ++ [file])

/-- The function `findFile` (lines 158-203).  The argument `dir` is the walk that
`fs::recursive_directory_iterator(dir)` performs; the value is the returned vector. -/
def findFile (dir : Traversal) (dateMatch modelMatch nameMatch : List Char) :
    Outcome (List fileMatch) :=
  findFileLoop dateMatch modelMatch nameMatch dir.entries []

/-- What `findFile` writes to `cerr` (line 199). -/
def findFileCerr (dir : Traversal) : List Char :=
  match dir.error with
  | some what => "Error: ".toList ++ what ++ "\n".toList
  | none => []

/-- What `printUsage` (lines 206-218) writes to `cerr`. -/
def printUsage (programName : List Char) : List Char :=
  "Usage: ".toList ++ programName ++ " DIRECTORY [OPTIONS]\n".toList
    ++ "Options:\n".toList
    ++ "  -n, --name   Match filename (case-insensitive, supports * wildcard)\n".toList
    ++ "  -d, --date   Match exact capture date (YYYY:MM:DD)\n".toList
    ++ "  -c, --camera Match camera model (case-insensitive, supports * wildcard)\n".toList
    ++ "  -h, --help   Display this help message\n".toList
    ++ "\nOutput format:\n".toList
    ++ "  MATCHES       FILENAME           CAMERA_MODEL         CAPTURE_DATE\n".toList

/-- The file system as `main` sees it: `fs::exists`, `fs::is_directory`, and the walk
of a directory tree. -/
structure FileSystem where
  pathExists : List Char → Bool
  isDirectory : List Char → Bool
  walk : List Char → Traversal

/-- The three filter variables of `main` (lines 225-227). -/
structure Filters where
  nameMatch : List Char
  dateMatch : List Char
  modelMatch : List Char
  deriving DecidableEq, Repr

/-- How the argument handling of `main` (lines 229-278) ends: with a `return` before
the scan, or at line 280 with a directory and the filters. -/
inductive Parsed where
  /-- A `return code` after writing `cerr`. -/
  | exit (code : Nat) (cerr : List Char)
  /-- Line 280 is reached. -/
  | scan (directory : List Char) (filters : Filters)
  deriving DecidableEq, Repr

/-- The test of line 253. -/
def isHelpFlag (arg : List Char) : Bool :=
  decide (arg = "-h".toList) || decide (arg = "--help".toList)

/-- The test of line 236: the first argument is one of the eight option names. -/
def isOptionName (arg : List Char) : Bool :=
  decide (arg = "-h".toList) || decide (arg = "--help".toList)
    || decide (arg = "-n".toList) || decide (arg = "--name".toList)
    || decide (arg = "-d".toList) || decide (arg = "--date".toList)
    || decide (arg = "-c".toList) || decide (arg = "--camera".toList)

/-- The loop `for (; i < argc; i++)` of lines 251-278 over the arguments
`argv[i], argv[i+1], ...` still to be read. -/
def optionLoop (programName directory : List Char) : List (List Char) → Filters → Parsed
  | [], filters => .scan directory filters
  | arg :: rest, filters =>
    if isHelpFlag arg then .exit 0 (printUsage programName)
    else if arg = "-n".toList ∨ arg = "--name".toList then
      match rest with
      | v :: rest' => optionLoop programName directory rest' { filters with nameMatch := v }
      | [] => optionLoop programName directory [] filters
    else if arg = "-d".toList ∨ arg = "--date".toList then
      match rest with
      | v :: rest' => optionLoop programName directory rest' { filters with dateMatch := v }
      | [] => optionLoop programName directory [] filters
    else if arg = "-c".toList ∨ arg = "--camera".toList then
      match rest with
      | v :: rest' => optionLoop programName directory rest' { filters with modelMatch := v }
      | [] => optionLoop programName directory [] filters
    else
      .exit 1 ("Unknown option: ".toList ++ arg ++ "\n".toList ++ printUsage programName)

/-- The tests of lines 257, 262 and 267 together: the argument is one of the six names
of an option that takes a value. -/
def isValueFlag (arg : List Char) : Bool :=
  decide (arg = "-n".toList) || decide (arg = "--name".toList)
    || decide (arg = "-d".toList) || decide (arg = "--date".toList)
    || decide (arg = "-c".toList) || decide (arg = "--camera".toList)

/-- The argument list made of flags each followed by its value. -/
def flagsWithValues (valued : List (List Char × List Char)) : List (List Char) :=
  (valued.map fun q => [q.1, q.2]).flatten

/-- Lines 225-278 of `main`: `argv` is the whole argument vector, program name first.
The precondition of `main` is `argc >= 1`; the empty vector is given the exit of
`argc < 2` with an empty program name. -/
def parseArgs (fs : FileSystem) (argv : List (List Char)) : Parsed :=
  match argv with
  | [] => .exit 1 (printUsage [])
  | [programName] => .exit 1 (printUsage programName)
  | programName :: directory :: rest =>
    if isOptionName directory then
      optionLoop programName ".".toList (directory :: rest) ⟨[], [], []⟩
    else if !fs.pathExists directory then
      .exit 1 ("Error: Directory '".toList ++ directory ++ "' does not exist\n".toList)
    else if !fs.isDirectory directory then
      .exit 1 ("Error: '".toList ++ directory ++ "' is not a directory\n".toList)
    else
      optionLoop programName directory rest ⟨[], [], []⟩

/-- Output with `left` and `setw(width)`: the text, then spaces up to `width`
characters; a longer text is written whole. -/
def setwLeft (width : Nat) (text : List Char) : List Char :=
  text ++ List.replicate (width - text.length) ' '

/-- The string `matchedBy` of lines 287-290. -/
def matchedBy (m : fileMatch) : List Char :=
  [if m.matchedByName then 'n' else '-',
   if m.matchedByDate then 'd' else '-',
   if m.matchedByModel then 'c' else '-']

/-- The line written to `cout` for one match (lines 293-296). -/
def printRow (m : fileMatch) : List Char :=
  setwLeft 8 (matchedBy m) ++ " ".toList ++ setwLeft 25 m.filename ++ " ".toList
    ++ setwLeft 23 m.metadata.cameraModel ++ " ".toList
    ++ setwLeft 20 m.metadata.captureDate ++ "\n".toList

/-- What a run of `main` leaves behind: the exit code and the text written to the
two streams. -/
structure Run where
  exitCode : Nat
  cout : List Char
  cerr : List Char
  deriving DecidableEq, Repr

/-- The function `main` (lines 220-305). -/
def main (fs : FileSystem) (argv : List (List Char)) : Outcome Run :=
  match parseArgs fs argv with
  | .exit code cerr => .value { exitCode := code, cout := [], cerr := cerr }
  | .scan directory filters =>
    (findFile (fs.walk directory) filters.dateMatch filters.modelMatch filters.nameMatch).bind
      fun result =>
        if result.isEmpty then
          .value { exitCode := 1, cout := []
                   cerr := findFileCerr (fs.walk directory) ++ "No files found\n".toList }
        else
          .value { exitCode := 0, cout := (result.map printRow).flatten
                   cerr := findFileCerr (fs.walk directory) }

/-- Glob semantics as the specification words it: `*` stands for any sequence of zero
or more characters of the candidate, and every other pattern character must equal
the candidate character at the same position. -/
def globMatch : List Char → List Char → Bool
  | [], candidate => candidate.isEmpty
  | c :: pattern, candidate =>
    if c = '*' then
      candidate.tails.any fun rest => globMatch pattern rest
    else
      match candidate with
      | [] => false
      | d :: rest => decide (c = d) && globMatch pattern rest


/-- A bound on the number of passes that the scan loop still makes from state `s`
on a candidate of length `n`. -/
def scanMeasure (n : Nat) (s : ScanState) : Nat :=
  (n - s.matchIdx) * (n + 1) + (n - s.t)

/-- The file that the loop body of `findFile` pushes back for an entry, if any. -/
def emitted (dateMatch modelMatch nameMatch : List Char) (entry : DirEntry) : Option fileMatch :=
  match visitEntry dateMatch modelMatch nameMatch entry with
  | .value r => r
  | _ => none

/-- The `(filename, metadata)` pairs of a result vector. -/
def pairs (files : List fileMatch) : List (List Char × imageMetadata) :=
  files.map fun f => (f.filename, f.metadata)

/-- The assignment that the option loop makes for the flag `flag` followed by the
value `v` (lines 257-271). -/
def setFilter (flag v : List Char) (filters : Filters) : Filters :=
  if flag = "-n".toList ∨ flag = "--name".toList then { filters with nameMatch := v }
  else if flag = "-d".toList ∨ flag = "--date".toList then { filters with dateMatch := v }
  else if flag = "-c".toList ∨ flag = "--camera".toList then { filters with modelMatch := v }
  else filters

/-- The filters after the option loop has read the flags with their values, in order. -/
def applyValued (valued : List (List Char × List Char)) (filters : Filters) : Filters :=
  valued.foldl (fun f q => setFilter q.1 q.2 f) filters

/-- The filter variable that a value-taking flag assigns. -/
def filterOf (flag : List Char) (filters : Filters) : List Char :=
  if flag = "-n".toList ∨ flag = "--name".toList then filters.nameMatch
  else if flag = "-d".toList ∨ flag = "--date".toList then filters.dateMatch
  else filters.modelMatch

/-- The state of the scan loop after `n` passes from `s`, when the loop makes that
many passes. -/
def scanRun (patternLower strLower : List Char) : Nat → ScanState → Option ScanState
  | 0, s => some s
  | n + 1, s =>
    if s.t < strLower.length then
      match scanBody patternLower strLower s with
      | .next s' => scanRun patternLower strLower n s'
      | _ => none
    else none

theorem tolower_cases (c : Char) :
    tolower c = c ∨ (97 ≤ (tolower c).toNat ∧ (tolower c).toNat ≤ 122) := by
  unfold tolower
  split
  · rename_i h
    right
    obtain ⟨h1, h2⟩ := h
    have hc : c = Char.ofNat c.toNat := (Char.ofNat_toNat c).symm
    generalize c.toNat = n at h1 h2 hc
    subst hc
    interval_cases n <;> decide
  · left; rfl

theorem tolower_idem (c : Char) : tolower (tolower c) = tolower c := by
  rcases tolower_cases c with h | ⟨h1, h2⟩
  · rw [h, h]
  · generalize tolower c = d at h1 h2
    unfold tolower
    rw [if_neg]
    omega

theorem tolower_eq_star (c : Char) : tolower c = '*' ↔ c = '*' := by
  constructor
  · intro h
    rcases tolower_cases c with h' | ⟨h1, _⟩
    · rw [← h', h]
    · rw [h] at h1
      exact absurd h1 (by decide)
  · intro h
    subst h
    decide

theorem toLower_length (s : List Char) : (toLower s).length = s.length := by
  simp [toLower]

theorem toLower_idem (s : List Char) : toLower (toLower s) = toLower s := by
  simp [toLower, tolower_idem]

theorem toLower_eq_nil (s : List Char) : toLower s = [] ↔ s = [] := by
  simp [toLower]

theorem toLower_eq_star (s : List Char) : toLower s = ['*'] ↔ s = ['*'] := by
  cases s with
  | nil => simp [toLower]
  | cons c r =>
    cases r with
    | nil => simp [toLower, tolower_eq_star]
    | cons d r => simp [toLower]

theorem star_toList : "*".toList = ['*'] := rfl

/-! ## The matcher -/

/-- C8: the empty pattern and the pattern `*` match every candidate string, the
empty one included. -/
theorem matchWildcard_empty_and_star (s : List Char) :
    matchWildcard [] s = .value true ∧ matchWildcard "*".toList s = .value true := by
  constructor <;> simp [matchWildcard, star_toList]

/-- C7: the matcher gives the same outcome on a pattern and a candidate as on their
lowercased forms, hence the same outcome on any two pairs that agree after
lowercasing. -/
theorem matchWildcard_toLower (p s : List Char) :
    matchWildcard p s = matchWildcard (toLower p) (toLower s)
    ∧ (∀ p' s', toLower p' = toLower p → toLower s' = toLower s →
          matchWildcard p' s' = matchWildcard p s)
    ∧ matchWildcard "abc".toList "ABC".toList = .value true
    ∧ matchWildcard "abc".toList "abc".toList = .value true := by
  have key : ∀ a b : List Char, matchWildcard a b = matchWildcard (toLower a) (toLower b) := by
    intro a b
    have h1 : (toLower a).isEmpty = a.isEmpty := by
      cases a <;> simp [toLower]
    have h2 : (toLower a = "*".toList) ↔ (a = "*".toList) := by
      rw [star_toList]; exact toLower_eq_star a
    unfold matchWildcard
    simp only [toLower_idem, h1, h2]
  refine ⟨key p s, ?_, by decide, by decide⟩
  intro p' s' hp hs
  rw [key p' s', key p s, hp, hs]

theorem matchWildcard_toLower_witness :
    matchWildcard "PHOTO*".toList "Photo".toList = matchWildcard "photo*".toList "PHOTO".toList :=
  (matchWildcard_toLower "photo*".toList "PHOTO".toList).2.1 "PHOTO*".toList "Photo".toList
    (by decide) (by decide)

/-! ### Runs of the scan loop that never meet a `*` -/

theorem charAt_of_le (s : List Char) (i : Nat) (h : i ≤ s.length) :
    charAt s i = some (s.getD i (Char.ofNat 0)) := by
  unfold charAt
  split
  · rename_i hlt
    simp [List.getD_eq_getElem s (Char.ofNat 0) hlt, hlt]
  · have hi : i = s.length := by omega
    simp [hi]

theorem charAt_eq_none (s : List Char) (i : Nat) : charAt s i = none ↔ s.length < i := by
  unfold charAt
  split
  · rename_i hlt
    simp [hlt]
    omega
  · split
    · simp; omega
    · simp; omega

theorem scanBody_literal (pat str : List Char) (t : Nat) (hp : t ≤ pat.length)
    (hstar : pat.getD t (Char.ofNat 0) ≠ '*') :
    scanBody pat str ⟨t, t, none, 0⟩ =
      if t < pat.length ∧ pat.getD t (Char.ofNat 0) = str.getD t (Char.ofNat 0)
      then .next ⟨t + 1, t + 1, none, 0⟩ else .returnFalse := by
  unfold scanBody
  simp only [isEqual, decide_eq_true_eq]
  split
  · rw [decide_eq_false hstar]
    rfl
  · rw [charAt_of_le pat t hp]
    simp only [hstar, if_false]
    rfl

theorem prefix_drop_step (pat str : List Char) (t : Nat) (ht : t < str.length) :
    str.drop t <+: pat.drop t ↔
      (t < pat.length ∧ pat.getD t (Char.ofNat 0) = str.getD t (Char.ofNat 0))
        ∧ str.drop (t + 1) <+: pat.drop (t + 1) := by
  rw [List.drop_eq_getElem_cons ht, List.getD_eq_getElem str (Char.ofNat 0) ht]
  by_cases hp : t < pat.length
  · rw [List.drop_eq_getElem_cons hp, List.getD_eq_getElem pat (Char.ofNat 0) hp,
      List.cons_prefix_cons]
    constructor
    · rintro ⟨h1, h2⟩
      exact ⟨⟨hp, h1.symm⟩, h2⟩
    · rintro ⟨⟨_, h1⟩, h2⟩
      exact ⟨h1.symm, h2⟩
  · have hnil : pat.drop t = [] := List.drop_eq_nil_of_le (by omega)
    rw [hnil]
    constructor
    · intro h
      have := h.length_le
      simp at this
      omega
    · rintro ⟨⟨h, _⟩, _⟩
      exact absurd h hp

theorem getD_ne_star_of_take (pat : List Char) (n t : Nat) (ht : t < n)
    (hstar : ∀ c ∈ pat.take n, c ≠ '*') : pat.getD t (Char.ofNat 0) ≠ '*' := by
  by_cases hp : t < pat.length
  · rw [List.getD_eq_getElem pat (Char.ofNat 0) hp]
    apply hstar
    rw [List.mem_take_iff_getElem]
    exact ⟨t, by omega, rfl⟩
  · rw [List.getD_eq_default pat (Char.ofNat 0) (by omega)]
    decide

theorem scanLoop_literal (pat str : List Char) (hstar : ∀ c ∈ pat.take str.length, c ≠ '*') :
    ∀ (fuel t : Nat), t ≤ str.length → t ≤ pat.length → str.length - t < fuel →
      scanLoop pat str fuel ⟨t, t, none, 0⟩ =
        if str.drop t <+: pat.drop t then
          .value (some ⟨str.length, str.length, none, 0⟩)
        else .value none := by
  intro fuel
  induction fuel with
  | zero => intro t _ _ h; omega
  | succ fuel ih =>
    intro t ht hp hfuel
    unfold scanLoop
    by_cases hlt : t < str.length
    · simp only [hlt, if_true]
      rw [scanBody_literal pat str t hp (getD_ne_star_of_take pat str.length t hlt hstar)]
      have hP := prefix_drop_step pat str t hlt
      by_cases hc : t < pat.length ∧ pat.getD t (Char.ofNat 0) = str.getD t (Char.ofNat 0)
      · rw [if_pos hc]
        simp only [hP, hc, and_self, true_and]
        exact ih (t + 1) hlt hc.1 (by omega)
      · rw [if_neg hc]
        simp only [hP, hc, false_and, if_false]
    · have h : t = str.length := by omega
      subst h
      simp

theorem lt_scanFuel (n : Nat) : n < scanFuel n := by
  unfold scanFuel
  exact Nat.lt_of_lt_of_le (Nat.lt_succ_self n) (Nat.le_mul_self (n + 1))

theorem skipStars_eq_length (pat : List Char) (p : Nat) (hp : p ≤ pat.length) :
    skipStars pat p = pat.length ↔ ∀ c ∈ pat.drop p, c = '*' := by
  unfold skipStars
  have hpre := List.takeWhile_prefix (fun c => decide (c = '*')) (l := pat.drop p)
  have hlen : (pat.drop p).length = pat.length - p := List.length_drop p pat
  constructor
  · intro h
    have heq : (pat.drop p).takeWhile (fun c => decide (c = '*')) = pat.drop p :=
      hpre.eq_of_length (by omega)
    intro c hc
    have := (List.takeWhile_eq_self_iff.1 heq) c hc
    simpa using this
  · intro h
    have heq : (pat.drop p).takeWhile (fun c => decide (c = '*')) = pat.drop p :=
      List.takeWhile_eq_self_iff.2 (fun c hc => by simpa using h c hc)
    rw [heq]
    omega

/-- What `matchWildcard` computes when none of the first `str.length()` characters of
the pattern is `*`: it returns, and it returns true exactly when the lowercased
candidate is a prefix of the lowercased pattern and only `*` follow it. -/
theorem matchWildcard_literal_reach (pattern str : List Char) (hne : pattern ≠ [])
    (hstar : ∀ c ∈ (toLower pattern).take str.length, c ≠ '*') :
    ∃ b, matchWildcard pattern str = .value b
      ∧ (b = true ↔ (toLower str <+: toLower pattern
            ∧ ∀ c ∈ (toLower pattern).drop str.length, c = '*')) := by
  by_cases hone : pattern = "*".toList
  · refine ⟨true, by simp [matchWildcard, hone], ?_⟩
    have hstr : str = [] := by
      have h1 : toLower "*".toList = ['*'] := by decide
      rw [hone, h1] at hstar
      cases str with
      | nil => rfl
      | cons a r => exact absurd rfl (hstar '*' (by simp))
    subst hstr
    rw [hone]
    simp only [true_iff]
    exact ⟨List.nil_prefix, by decide⟩
  · have hemp : pattern.isEmpty = false := by cases pattern <;> simp_all
    have hstar' : ∀ c ∈ (toLower pattern).take (toLower str).length, c ≠ '*' := by
      rw [toLower_length]; exact hstar
    have hloop := scanLoop_literal (toLower pattern) (toLower str) hstar'
      (scanFuel (toLower str).length) 0 (Nat.zero_le _) (Nat.zero_le _)
      (by rw [Nat.sub_zero]; exact lt_scanFuel _)
    simp only [List.drop_zero] at hloop
    unfold matchWildcard
    simp only [hemp, Bool.false_eq_true, if_false, hone, hloop]
    by_cases hpre : toLower str <+: toLower pattern
    · simp only [hpre, if_true, true_and]
      refine ⟨_, rfl, ?_⟩
      rw [decide_eq_true_iff, skipStars_eq_length _ _ hpre.length_le, toLower_length]
    · simp only [hpre, if_false, false_and]
      exact ⟨false, rfl, by simp⟩

/-! ### The loop budget is never used up -/

theorem scanBody_next_measure (pat str : List Char) (s s' : ScanState)
    (ht : s.t < str.length) (hm : s.matchIdx ≤ s.t)
    (h : scanBody pat str s = .next s') :
    s'.matchIdx ≤ s'.t ∧ s'.t ≤ str.length
      ∧ scanMeasure str.length s' < scanMeasure str.length s := by
  have hadv : ∀ b, (advance b s).matchIdx ≤ (advance b s).t ∧ (advance b s).t ≤ str.length
      ∧ scanMeasure str.length (advance b s) < scanMeasure str.length s := by
    intro b
    cases b with
    | false =>
      simp only [advance, Bool.false_eq_true, if_false, scanMeasure]
      refine ⟨by omega, by omega, ?_⟩
      omega
    | true =>
      simp only [advance, if_true, scanMeasure]
      refine ⟨by omega, by omega, ?_⟩
      have := Nat.mul_le_mul_right (str.length + 1) (Nat.sub_le_sub_left hm str.length)
      omega
  unfold scanBody at h
  simp only at h
  split at h
  · cases h
    exact hadv _
  · split at h
    · cases h
    · split at h
      · cases h
        exact hadv true
      · unfold mismatch at h
        split at h
        · cases h
          simp only [scanMeasure]
          refine ⟨by omega, by omega, ?_⟩
          have hk : str.length - s.matchIdx = (str.length - (s.matchIdx + 1)) + 1 := by omega
          rw [hk, Nat.add_mul]
          omega
        · cases h

theorem scanLoop_ne_outOfFuel (pat str : List Char) :
    ∀ (fuel : Nat) (s : ScanState), s.matchIdx ≤ s.t → s.t ≤ str.length →
      scanMeasure str.length s < fuel → scanLoop pat str fuel s ≠ .outOfFuel := by
  intro fuel
  induction fuel with
  | zero => intro s _ _ h; omega
  | succ fuel ih =>
    intro s hm ht hfuel
    unfold scanLoop
    by_cases hlt : s.t < str.length
    · simp only [hlt, if_true]
      cases hb : scanBody pat str s with
      | next s' =>
        obtain ⟨h1, h2, h3⟩ := scanBody_next_measure pat str s s' hlt hm hb
        exact ih s' h1 h2 (by omega)
      | returnFalse => simp
      | outOfRange => simp
    · simp [hlt]

theorem scanMeasure_init (n : Nat) : scanMeasure n ⟨0, 0, none, 0⟩ < scanFuel n := by
  simp only [scanMeasure, scanFuel, Nat.sub_zero]
  rw [Nat.add_mul]
  omega

/-- The budget `scanFuel` is enough: the model of `matchWildcard` always ends with a
returned value or with an out-of-range read. -/
theorem matchWildcard_ne_outOfFuel (pattern str : List Char) :
    matchWildcard pattern str ≠ .outOfFuel := by
  unfold matchWildcard
  simp only
  split
  · simp
  · split
    · simp
    · have := scanLoop_ne_outOfFuel (toLower pattern) (toLower str)
        (scanFuel (toLower str).length) ⟨0, 0, none, 0⟩ (Nat.le_refl _) (Nat.zero_le _)
        (scanMeasure_init _)
      split <;> simp_all

theorem toLower_take_no_star (pattern : List Char) (n : Nat)
    (h : ∀ c ∈ pattern.take n, c ≠ '*') : ∀ c ∈ (toLower pattern).take n, c ≠ '*' := by
  intro c hc hstar
  unfold toLower at hc
  rw [← List.map_take, List.mem_map] at hc
  obtain ⟨a, ha, hac⟩ := hc
  rw [hstar] at hac
  exact h a ha ((tolower_eq_star a).1 hac)

/-! ### Termination whatever is read past the terminator -/

theorem mismatch_ne_outOfRange (s : ScanState) : mismatch s ≠ .outOfRange := by
  unfold mismatch
  split <;> simp

theorem scanBody_eq_outOfRange (pat str : List Char) (s : ScanState) :
    scanBody pat str s = .outOfRange ↔ pat.length < s.p := by
  unfold scanBody
  simp only
  split
  · rename_i h
    constructor
    · intro h'; cases h'
    · intro h'; omega
  · cases hc : charAt pat s.p with
    | none =>
      simp only [true_iff]
      exact (charAt_eq_none pat s.p).1 hc
    | some x =>
      have hlt : ¬ pat.length < s.p := by
        intro h'
        rw [(charAt_eq_none pat s.p).2 h'] at hc
        cases hc
      simp only [hlt, iff_false]
      split
      · simp
      · exact mismatch_ne_outOfRange s

/-- C17, at a failing input: for the pattern `a*` and the candidate `abc` the scan
loop is, after two passes, in a state with `t = 2 < 3` and `p = 3` while the pattern
has length 2, and the third evaluation of line 85 reads `patternLower[3]`.  In
general a pass reads out of range exactly when it starts with `p` greater than the
length of the pattern. -/
theorem matchWildcard_reads_past_terminator :
    (toLower "a*".toList).length = 2
    ∧ scanRun (toLower "a*".toList) (toLower "abc".toList) 2 ⟨0, 0, none, 0⟩
        = some ⟨2, 3, some 1, 1⟩
    ∧ scanBody (toLower "a*".toList) (toLower "abc".toList) ⟨2, 3, some 1, 1⟩ = .outOfRange
    ∧ matchWildcard "a*".toList "abc".toList = .outOfRange
    ∧ (∀ (pat str : List Char) (s : ScanState),
        scanBody pat str s = .outOfRange ↔ pat.length < s.p) := by
  refine ⟨by decide, by decide, by decide, by decide, scanBody_eq_outOfRange⟩

/-! ### Glob semantics -/

theorem globMatch_stars (l : List Char) (h : ∀ c ∈ l, c = '*') : globMatch l [] = true := by
  induction l with
  | nil => rfl
  | cons c r ih =>
    have hc : c = '*' := h c (List.mem_cons_self _ _)
    subst hc
    simp only [globMatch, if_true, List.tails, List.any_cons, List.any_nil, Bool.or_false]
    exact ih (fun c hc => h c (List.mem_cons_of_mem _ hc))

theorem globMatch_literal_append (s r : List Char) (h : ∀ c ∈ s, c ≠ '*') :
    globMatch (s ++ r) s = globMatch r [] := by
  induction s with
  | nil => rfl
  | cons c s ih =>
    have hc : c ≠ '*' := h c (List.mem_cons_self _ _)
    simp only [List.cons_append, globMatch, hc, if_false, decide_True, Bool.true_and]
    exact ih (fun c hc => h c (List.mem_cons_of_mem _ hc))

/-- C1, at a failing input: the candidate `ab` does not match the pattern `a*c` under
glob semantics, and `matchWildcard` returns true, because the star branch of lines
86-92 takes one candidate character for the `*` and steps over the `c` of the pattern
without comparing it; the three matching examples of the specification for `a*c`
return true. -/
theorem matchWildcard_star_steps_over_next :
    globMatch (toLower "a*c".toList) (toLower "ab".toList) = false
    ∧ matchWildcard "a*c".toList "ab".toList = .value true
    ∧ matchWildcard "a*c".toList "abc".toList = .value true
    ∧ matchWildcard "a*c".toList "ac".toList = .value true
    ∧ matchWildcard "a*c".toList "abXc".toList = .value true := by
  decide

/-- The empty pattern is a case of its own: `matchWildcard` returns true for the
candidate `x` by the guard of line 71, and under glob semantics the empty pattern
matches the empty string only. -/
theorem matchWildcard_empty_pattern_not_glob :
    matchWildcard [] "x".toList = .value true
    ∧ globMatch (toLower []) (toLower "x".toList) = false := by
  decide

/-- Runs that never reach the star branch give no false positive: for a non-empty
pattern none of whose first `n` characters is `*`, `n` being the length of the
candidate, a result of true means that the lowercased candidate matches the
lowercased pattern under glob semantics. -/
theorem matchWildcard_sound_before_first_star (pattern str : List Char) (hne : pattern ≠ [])
    (hfirst : ∀ c ∈ pattern.take str.length, c ≠ '*')
    (h : matchWildcard pattern str = .value true) :
    globMatch (toLower pattern) (toLower str) = true := by
  have hstar := toLower_take_no_star pattern str.length hfirst
  obtain ⟨b, hb, hiff⟩ := matchWildcard_literal_reach pattern str hne hstar
  rw [h] at hb
  have hb' : b = true := by
    simp only [Outcome.value.injEq] at hb
    exact hb.symm
  obtain ⟨hpre, hrest⟩ := hiff.1 hb'
  have htake : (toLower pattern).take str.length = toLower str := by
    have := List.prefix_iff_eq_take.1 hpre
    rw [toLower_length] at this
    exact this.symm
  have hsplit : toLower pattern = toLower str ++ (toLower pattern).drop str.length := by
    rw [← htake]
    exact (List.take_append_drop _ _).symm
  rw [hsplit, globMatch_literal_append _ _ (by rw [← htake]; exact hstar)]
  exact globMatch_stars _ hrest

theorem matchWildcard_sound_before_first_star_witness :
    globMatch (toLower "Ab*".toList) (toLower "aB".toList) = true :=
  matchWildcard_sound_before_first_star "Ab*".toList "aB".toList (by decide) (by decide)
    (by decide)

/-- C2, at a failing input: the candidate `ab` matches the pattern `a*` under glob
semantics, and `matchWildcard` returns false; at the specification's example
`*a*b*` against `xaxbx` the matcher reads the pattern out of range. -/
theorem matchWildcard_misses_trailing_star :
    globMatch (toLower "a*".toList) (toLower "ab".toList) = true
    ∧ matchWildcard "a*".toList "ab".toList = .value false
    ∧ globMatch (toLower "*a*b*".toList) (toLower "xaxbx".toList) = true
    ∧ matchWildcard "*a*b*".toList "xaxbx".toList = .outOfRange
    ∧ matchWildcard "*.jpg".toList "PHOTO.JPG".toList = .value true := by
  decide

/-- C15: for a non-empty pattern without `*`, `matchWildcard` returns, and it returns
true exactly when the lowercased pattern equals the lowercased candidate; so the
pattern matches neither a proper extension nor a proper prefix of itself, and a
mismatch while no `*` has been seen is the `return false`. -/
theorem matchWildcard_literal (pattern str : List Char) (hne : pattern ≠ [])
    (hlit : '*' ∉ pattern) :
    matchWildcard pattern str = .value (decide (toLower pattern = toLower str))
    ∧ (∀ extra, extra ≠ [] → matchWildcard pattern (pattern ++ extra) = .value false)
    ∧ (∀ pre extra, extra ≠ [] → pattern = pre ++ extra →
        matchWildcard pattern pre = .value false)
    ∧ (∀ t p matchIdx, mismatch ⟨t, p, none, matchIdx⟩ = .returnFalse) := by
  have hno : ∀ c ∈ toLower pattern, c ≠ '*' := by
    intro c hc hstar
    unfold toLower at hc
    obtain ⟨a, ha, hac⟩ := List.mem_map.1 hc
    rw [hstar] at hac
    exact hlit ((tolower_eq_star a).1 hac ▸ ha)
  have key : ∀ s : List Char,
      matchWildcard pattern s = .value (decide (toLower pattern = toLower s)) := by
    intro s
    obtain ⟨b, hb, hiff⟩ := matchWildcard_literal_reach pattern s hne
      (fun c hc => hno c (List.mem_of_mem_take hc))
    rw [hb]
    congr 1
    have hiff' : b = true ↔ toLower pattern = toLower s := by
      rw [hiff]
      constructor
      · rintro ⟨hpre, hrest⟩
        have hnil : (toLower pattern).drop s.length = [] := by
          cases hd : (toLower pattern).drop s.length with
          | nil => rfl
          | cons c r =>
            have hc : c ∈ (toLower pattern).drop s.length := by rw [hd]; exact List.mem_cons_self _ _
            exact absurd (hrest c hc) (hno c (List.mem_of_mem_drop hc))
        have hlen : (toLower pattern).length ≤ (toLower s).length := by
          rw [toLower_length s]
          exact List.drop_eq_nil_iff.1 hnil
        exact (hpre.eq_of_length_le hlen).symm
      · intro h
        rw [h]
        refine ⟨List.prefix_refl _, ?_⟩
        rw [← toLower_length s, List.drop_length]
        intro c hc
        cases hc
    cases b with
    | true => exact (decide_eq_true (hiff'.1 rfl)).symm
    | false => exact (decide_eq_false (fun h => by simpa using hiff'.2 h)).symm
  have hlenne : ∀ a b : List Char, a.length ≠ b.length → decide (toLower a = toLower b) = false := by
    intro a b hab
    apply decide_eq_false
    intro h
    apply hab
    rw [← toLower_length a, ← toLower_length b, h]
  refine ⟨key str, ?_, ?_, fun _ _ _ => rfl⟩
  · intro extra hextra
    rw [key, hlenne]
    have : 0 < extra.length := List.length_pos.2 hextra
    simp only [List.length_append]
    omega
  · intro pre extra hextra hpat
    rw [key, hlenne]
    have : 0 < extra.length := List.length_pos.2 hextra
    rw [hpat]
    simp only [List.length_append]
    omega

theorem matchWildcard_literal_witness :
    matchWildcard "Photo.JPG".toList "photo.jpg".toList
      = .value (decide (toLower "Photo.JPG".toList = toLower "photo.jpg".toList)) :=
  (matchWildcard_literal "Photo.JPG".toList "photo.jpg".toList (by decide) (by decide)).1

/-! ## Date truncation -/

/-- C10: `trimTimeFromDate` gives the first 10 characters of a string of length at
least 10 and the string itself otherwise; the result is a prefix of the string of
length at most 10, and the function is idempotent. -/
theorem trimTimeFromDate_spec (r : List Char) :
    (10 ≤ r.length → trimTimeFromDate r = r.take 10)
    ∧ (r.length < 10 → trimTimeFromDate r = r)
    ∧ trimTimeFromDate [] = []
    ∧ trimTimeFromDate r <+: r
    ∧ (trimTimeFromDate r).length ≤ 10
    ∧ trimTimeFromDate (trimTimeFromDate r) = trimTimeFromDate r
    ∧ trimTimeFromDate "2023:05:01 14:22:10".toList = "2023:05:01".toList
    ∧ trimTimeFromDate "2023".toList = "2023".toList := by
  have htake : trimTimeFromDate r = r.take 10 := by
    unfold trimTimeFromDate
    split
    · rfl
    · rw [List.take_of_length_le (by omega)]
  refine ⟨fun _ => htake, ?_, by decide, ?_, ?_, ?_, by decide, by decide⟩
  · intro h
    rw [htake, List.take_of_length_le (by omega)]
  · rw [htake]; exact List.take_prefix 10 r
  · rw [htake, List.length_take]; omega
  · rw [htake]
    unfold trimTimeFromDate
    split
    · rw [List.take_take]; simp
    · rfl

/-! ## The filter engine -/

theorem Outcome.bind_eq_value {α β : Type} (o : Outcome α) (f : α → Outcome β) (b : β) :
    o.bind f = .value b ↔ ∃ a, o = .value a ∧ f a = .value b := by
  cases o <;> simp [Outcome.bind]

theorem endsWith_iff (str suffix : List Char) : endsWith str suffix = true ↔ suffix <:+ str := by
  unfold endsWith
  split
  · rw [decide_eq_true_iff, List.suffix_iff_eq_drop]
    exact eq_comm
  · rename_i h
    constructor
    · intro h'; cases h'
    · intro h'; exact absurd h'.length_le h

theorem isJpeg_iff (name : List Char) :
    isJpeg name = true ↔ ".jpg".toList <:+ toLower name ∨ ".jpeg".toList <:+ toLower name := by
  simp [isJpeg, endsWith_iff]

theorem nameGateSkips_eq_false (n fn : List Char) :
    nameGateSkips n fn = .value false ↔ n = [] ∨ matchWildcard n fn = .value true := by
  unfold nameGateSkips
  cases n with
  | nil => simp
  | cons c r =>
    simp only [List.isEmpty_cons, Bool.false_eq_true, if_false, Outcome.bind_eq_value]
    constructor
    · rintro ⟨a, ha, hb⟩
      right
      cases a <;> simp_all
    · rintro (h | h)
      · cases h
      · exact ⟨true, h, rfl⟩

theorem meetsCriteria_eq_true (d m : List Char) (md : imageMetadata) :
    meetsCriteria d m md = .value true ↔
      (d = [] ∨ d = md.captureDate) ∧ (m = [] ∨ matchWildcard m md.cameraModel = .value true) := by
  unfold meetsCriteria
  cases d with
  | nil =>
    cases m with
    | nil => simp
    | cons c r => simp
  | cons a l =>
    cases m with
    | nil => simp
    | cons c r =>
      by_cases h : a :: l = md.captureDate <;> simp [h]

/-- The qualifying-file rule for one entry: the loop body of `findFile` pushes back
`f` for `e` exactly when `e` is a regular file with a JPEG name that passes the name
gate, has metadata, and meets the date and model criteria; `f` then carries the
lowercased name, the metadata and the three activation flags. -/
theorem visitEntry_eq_some_iff (d m n : List Char) (e : DirEntry) (f : fileMatch) :
    visitEntry d m n e = .value (some f) ↔
      e.isRegularFile = true ∧ isJpeg (toLower e.filename) = true
      ∧ (n = [] ∨ matchWildcard n (toLower e.filename) = .value true)
      ∧ ∃ md, matchMetadata e = some md
          ∧ (d = [] ∨ d = md.captureDate)
          ∧ (m = [] ∨ matchWildcard m md.cameraModel = .value true)
          ∧ f = { filename := toLower e.filename, metadata := md
                  matchedByName := !n.isEmpty, matchedByDate := !d.isEmpty
                  matchedByModel := !m.isEmpty } := by
  unfold visitEntry
  by_cases hreg : e.isRegularFile = true
  swap
  · simp [hreg]
  by_cases hj : isJpeg (toLower e.filename) = true
  swap
  · simp [hreg, hj]
  simp only [hreg, hj, Bool.not_true, Bool.false_eq_true, if_false, true_and,
    Outcome.bind_eq_value]
  constructor
  · rintro ⟨skip, hskip, h⟩
    cases skip with
    | true => simp at h
    | false =>
      simp only [Bool.false_eq_true, if_false] at h
      refine ⟨(nameGateSkips_eq_false _ _).1 hskip, ?_⟩
      cases hmd : matchMetadata e with
      | none => simp [hmd] at h
      | some md =>
        simp only [hmd, Outcome.bind_eq_value] at h
        obtain ⟨meets, hmeets, h⟩ := h
        cases meets with
        | false => simp at h
        | true =>
          simp only [if_true, Outcome.value.injEq, Option.some.injEq] at h
          obtain ⟨h1, h2⟩ := (meetsCriteria_eq_true _ _ _).1 hmeets
          exact ⟨md, rfl, h1, h2, h.symm⟩
  · rintro ⟨hn, md, hmd, h1, h2, hf⟩
    refine ⟨false, (nameGateSkips_eq_false _ _).2 hn, ?_⟩
    simp only [Bool.false_eq_true, if_false, hmd, Outcome.bind_eq_value]
    exact ⟨true, (meetsCriteria_eq_true _ _ _).2 ⟨h1, h2⟩, by simp [hf]⟩

theorem findFileLoop_eq_value (d m n : List Char) :
    ∀ (es : List DirEntry) (acc res : List fileMatch),
      findFileLoop d m n es acc = .value res →
        res = acc ++ es.filterMap (emitted d m n)
        ∧ ∀ e ∈ es, ∃ o, visitEntry d m n e = .value o := by
  intro es
  induction es with
  | nil =>
    intro acc res h
    simp [findFileLoop] at h
    simp [h]
  | cons e es ih =>
    intro acc res h
    simp only [findFileLoop, Outcome.bind_eq_value] at h
    obtain ⟨r, hr, h⟩ := h
    cases r with
    | none =>
      obtain ⟨h1, h2⟩ := ih acc res h
      refine ⟨?_, ?_⟩
      · simp [List.filterMap_cons, emitted, hr, h1]
      · intro e' he'
        rcases List.mem_cons.1 he' with rfl | he'
        · exact ⟨_, hr⟩
        · exact h2 e' he'
    | some f =>
      obtain ⟨h1, h2⟩ := ih (acc ++ [f]) res h
      refine ⟨?_, ?_⟩
      · simp [List.filterMap_cons, emitted, hr, h1]
      · intro e' he'
        rcases List.mem_cons.1 he' with rfl | he'
        · exact ⟨_, hr⟩
        · exact h2 e' he'

theorem emitted_eq_some (d m n : List Char) (e : DirEntry) (f : fileMatch) :
    emitted d m n e = some f ↔ visitEntry d m n e = .value (some f) := by
  unfold emitted
  cases h : visitEntry d m n e <;> simp

theorem mem_findFile (dir : Traversal) (d m n : List Char) (res : List fileMatch)
    (h : findFile dir d m n = .value res) (f : fileMatch) :
    f ∈ res ↔ ∃ e ∈ dir.entries, visitEntry d m n e = .value (some f) := by
  obtain ⟨h1, _⟩ := findFileLoop_eq_value d m n dir.entries [] res h
  simp [h1, List.mem_filterMap, emitted_eq_some]

theorem Outcome.bind_ne_outOfFuel {α β : Type} (o : Outcome α) (f : α → Outcome β)
    (ho : o ≠ .outOfFuel) (hf : ∀ a, f a ≠ .outOfFuel) : o.bind f ≠ .outOfFuel := by
  cases o with
  | value a => exact hf a
  | outOfRange => simp [Outcome.bind]
  | outOfFuel => exact absurd rfl ho

theorem visitEntry_ne_outOfFuel (d m n : List Char) (e : DirEntry) :
    visitEntry d m n e ≠ .outOfFuel := by
  have hgate : ∀ fn, nameGateSkips n fn ≠ .outOfFuel := by
    intro fn
    unfold nameGateSkips
    split
    · simp
    · exact Outcome.bind_ne_outOfFuel _ _ (matchWildcard_ne_outOfFuel _ _) (by simp)
  have hmeets : ∀ md, meetsCriteria d m md ≠ .outOfFuel := by
    intro md
    have hw := matchWildcard_ne_outOfFuel m md.cameraModel
    unfold meetsCriteria
    cases m with
    | nil => simp
    | cons c r =>
      cases d with
      | nil => simpa using hw
      | cons a l =>
        by_cases h : a :: l = md.captureDate
        · simpa [h] using hw
        · simp [h]
  unfold visitEntry
  split
  · simp
  · simp only
    split
    · simp
    · refine Outcome.bind_ne_outOfFuel _ _ (hgate _) ?_
      intro skip
      split
      · simp
      · split
        · simp
        · refine Outcome.bind_ne_outOfFuel _ _ (hmeets _) ?_
          intro meets
          split <;> simp

/-- The model of `findFile` never ends for lack of loop budget. -/
theorem findFile_ne_outOfFuel (dir : Traversal) (d m n : List Char) :
    findFile dir d m n ≠ .outOfFuel := by
  have hloop : ∀ (es : List DirEntry) (acc : List fileMatch),
      findFileLoop d m n es acc ≠ .outOfFuel := by
    intro es
    induction es with
    | nil => intro acc; simp [findFileLoop]
    | cons e es ih =>
      intro acc
      unfold findFileLoop
      refine Outcome.bind_ne_outOfFuel _ _ (visitEntry_ne_outOfFuel d m n e) ?_
      intro r
      cases r with
      | none => exact ih acc
      | some f => exact ih _
  exact hloop _ _

/-- C3, at the specification's own scenario: with `a.jpg` (model "Canon EOS") and
`b.jpg` (model "Nikon D90") and only the camera filter `Canon*`, the matcher
reads `patternLower[7]` of the six-character pattern while it handles `a.jpg`, so
the run of `findFile` has no defined result; the literal filter `Canon EOS`
returns exactly `a.jpg` with only `matchedByModel` set. -/
theorem findFile_canon_star_outOfRange :
    matchWildcard "Canon*".toList "Canon EOS".toList = .outOfRange
    ∧ findFile
        ⟨[⟨true, "a.jpg".toList, some ⟨"2021:01:01".toList, "Canon EOS".toList⟩⟩,
          ⟨true, "b.jpg".toList, some ⟨"2021:01:01".toList, "Nikon D90".toList⟩⟩], none⟩
        [] "Canon*".toList [] = .outOfRange
    ∧ findFile
        ⟨[⟨true, "a.jpg".toList, some ⟨"2021:01:01".toList, "Canon EOS".toList⟩⟩,
          ⟨true, "b.jpg".toList, some ⟨"2021:01:01".toList, "Nikon D90".toList⟩⟩], none⟩
        [] "Canon EOS".toList []
      = .value [⟨"a.jpg".toList, ⟨"2021:01:01".toList, "Canon EOS".toList⟩, false, false, true⟩] := by
  decide

/-- C4: every entry that `findFile` returns has each `matchedBy` flag set exactly
when the corresponding criterion is non-empty and satisfied by the entry, which on
returned entries is the same as the criterion being non-empty. -/
theorem findFile_match_flags (dir : Traversal) (d m n : List Char) (res : List fileMatch)
    (h : findFile dir d m n = .value res) (f : fileMatch) (hf : f ∈ res) :
    (f.matchedByName = true ↔ n ≠ [] ∧ matchWildcard n f.filename = .value true)
    ∧ (f.matchedByDate = true ↔ d ≠ [] ∧ d = f.metadata.captureDate)
    ∧ (f.matchedByModel = true ↔ m ≠ [] ∧ matchWildcard m f.metadata.cameraModel = .value true)
    ∧ f.matchedByName = !n.isEmpty ∧ f.matchedByDate = !d.isEmpty
    ∧ f.matchedByModel = !m.isEmpty := by
  obtain ⟨e, _, he⟩ := (mem_findFile dir d m n res h f).1 hf
  obtain ⟨_, _, hn, md, _, hd, hm, rfl⟩ := (visitEntry_eq_some_iff d m n e f).1 he
  refine ⟨?_, ?_, ?_, rfl, rfl, rfl⟩
  · cases n with
    | nil => simp
    | cons c r => simpa using hn
  · cases d with
    | nil => simp
    | cons c r => simpa using hd
  · cases m with
    | nil => simp
    | cons c r => simpa using hm

theorem findFile_match_flags_witness :
    findFile
        ⟨[⟨true, "A.JPG".toList, some ⟨"2021:01:01 10:00:00".toList, "Canon EOS".toList⟩⟩,
          ⟨true, "b.jpg".toList, some ⟨"2021:01:01 10:00:00".toList, "Nikon D90".toList⟩⟩], none⟩
        "2021:01:01".toList [] "a.jpg".toList
      = .value [⟨"a.jpg".toList, ⟨"2021:01:01".toList, "Canon EOS".toList⟩, true, true, false⟩]
    ∧ (true = true ↔ "a.jpg".toList ≠ [] ∧ matchWildcard "a.jpg".toList "a.jpg".toList = .value true)
    ∧ (true = true ↔ "2021:01:01".toList ≠ [] ∧ "2021:01:01".toList = "2021:01:01".toList)
    ∧ (false = true ↔ ([] : List Char) ≠ [] ∧ matchWildcard [] "Canon EOS".toList = .value true) :=
  have h := findFile_match_flags
    ⟨[⟨true, "A.JPG".toList, some ⟨"2021:01:01 10:00:00".toList, "Canon EOS".toList⟩⟩,
      ⟨true, "b.jpg".toList, some ⟨"2021:01:01 10:00:00".toList, "Nikon D90".toList⟩⟩], none⟩
    "2021:01:01".toList [] "a.jpg".toList
    [⟨"a.jpg".toList, ⟨"2021:01:01".toList, "Canon EOS".toList⟩, true, true, false⟩]
    (by decide) ⟨"a.jpg".toList, ⟨"2021:01:01".toList, "Canon EOS".toList⟩, true, true, false⟩
    (List.mem_singleton.2 rfl)
  ⟨by decide, h.1, h.2.1, h.2.2.1⟩

/-- C6: dropping one criterion never loses a result.  When `findFile` returns with the
filters `d`, `m`, `n` and also returns with one of them emptied, every
`(filename, metadata)` pair of the first result is in the second; with the third
filter empty this compares two criteria with either one of them alone. -/
theorem findFile_criteria_monotone (dir : Traversal) (d m n : List Char)
    (both one : List fileMatch) (hboth : findFile dir d m n = .value both) :
    (findFile dir [] m n = .value one → pairs both ⊆ pairs one)
    ∧ (findFile dir d [] n = .value one → pairs both ⊆ pairs one)
    ∧ (findFile dir d m [] = .value one → pairs both ⊆ pairs one) := by
  have key : ∀ d' m' n' : List Char, findFile dir d' m' n' = .value one →
      (d' = [] ∨ d' = d) → (m' = [] ∨ m' = m) → (n' = [] ∨ n' = n) →
      pairs both ⊆ pairs one := by
    intro d' m' n' hone hd hm hn x hx
    obtain ⟨f, hf, rfl⟩ := List.mem_map.1 hx
    obtain ⟨e, he, hv⟩ := (mem_findFile dir d m n both hboth f).1 hf
    obtain ⟨hreg, hj, h1, md, hmd, h2, h3, rfl⟩ := (visitEntry_eq_some_iff d m n e f).1 hv
    have hv' : visitEntry d' m' n' e = .value (some
        { filename := toLower e.filename, metadata := md
          matchedByName := !n'.isEmpty, matchedByDate := !d'.isEmpty
          matchedByModel := !m'.isEmpty }) := by
      refine (visitEntry_eq_some_iff d' m' n' e _).2 ⟨hreg, hj, ?_, md, hmd, ?_, ?_, rfl⟩
      · rcases hn with h | h
        · exact Or.inl h
        · rw [h]; exact h1
      · rcases hd with h | h
        · exact Or.inl h
        · rw [h]; exact h2
      · rcases hm with h | h
        · exact Or.inl h
        · rw [h]; exact h3
    exact List.mem_map.2 ⟨_, (mem_findFile dir d' m' n' one hone _).2 ⟨e, he, hv'⟩, rfl⟩
  exact ⟨fun h => key [] m n h (Or.inl rfl) (Or.inr rfl) (Or.inr rfl),
    fun h => key d [] n h (Or.inr rfl) (Or.inl rfl) (Or.inr rfl),
    fun h => key d m [] h (Or.inr rfl) (Or.inr rfl) (Or.inl rfl)⟩

theorem findFile_criteria_monotone_witness :
    pairs [⟨"a.jpg".toList, ⟨"2021:01:01".toList, "Canon EOS".toList⟩, false, true, true⟩]
      ⊆ pairs [⟨"a.jpg".toList, ⟨"2021:01:01".toList, "Canon EOS".toList⟩, false, true, false⟩,
               ⟨"b.jpg".toList, ⟨"2021:01:01".toList, "Nikon D90".toList⟩, false, true, false⟩] :=
  (findFile_criteria_monotone
    ⟨[⟨true, "a.jpg".toList, some ⟨"2021:01:01 10:00:00".toList, "Canon EOS".toList⟩⟩,
      ⟨true, "b.jpg".toList, some ⟨"2021:01:01 10:00:00".toList, "Nikon D90".toList⟩⟩,
      ⟨true, "c.jpg".toList, some ⟨"2022:02:02 10:00:00".toList, "Canon EOS".toList⟩⟩], none⟩
    "2021:01:01".toList "canon eos".toList []
    [⟨"a.jpg".toList, ⟨"2021:01:01".toList, "Canon EOS".toList⟩, false, true, true⟩]
    [⟨"a.jpg".toList, ⟨"2021:01:01".toList, "Canon EOS".toList⟩, false, true, false⟩,
     ⟨"b.jpg".toList, ⟨"2021:01:01".toList, "Nikon D90".toList⟩, false, true, false⟩]
    (by decide)).2.1 (by decide)

/-- C9: `isJpeg` holds exactly for names whose lowercased form ends in `.jpg` or
`.jpeg`; every entry that `findFile` returns has such a filename; entries named
`x.png`, `x.gif` or `x` are skipped whatever the filters are, and `x.JPG`, `x.JPEG`
and `x.jpg` pass the extension test. -/
theorem isJpeg_extension_filter (name : List Char) (dir : Traversal) (d m n : List Char)
    (res : List fileMatch) :
    (isJpeg name = true ↔ ".jpg".toList <:+ toLower name ∨ ".jpeg".toList <:+ toLower name)
    ∧ (findFile dir d m n = .value res →
        ∀ f ∈ res, ".jpg".toList <:+ f.filename ∨ ".jpeg".toList <:+ f.filename)
    ∧ (∀ e : DirEntry, e.filename ∈ ["x.png".toList, "x.gif".toList, "x".toList] →
        visitEntry d m n e = .value none)
    ∧ isJpeg "x.JPG".toList = true ∧ isJpeg "x.JPEG".toList = true
    ∧ isJpeg "x.jpg".toList = true
    ∧ isJpeg "x.png".toList = false ∧ isJpeg "x.gif".toList = false
    ∧ isJpeg "x".toList = false := by
  refine ⟨isJpeg_iff name, ?_, ?_, by decide, by decide, by decide, by decide, by decide,
    by decide⟩
  · intro h f hf
    obtain ⟨e, _, he⟩ := (mem_findFile dir d m n res h f).1 hf
    obtain ⟨_, hj, _, md, _, _, _, rfl⟩ := (visitEntry_eq_some_iff d m n e f).1 he
    have := (isJpeg_iff (toLower e.filename)).1 hj
    rwa [toLower_idem] at this
  · intro e he
    have hj : isJpeg (toLower e.filename) = false := by
      simp only [List.mem_cons, List.mem_singleton, List.not_mem_nil, or_false] at he
      rcases he with h | h | h <;> rw [h] <;> decide
    unfold visitEntry
    cases e.isRegularFile <;> simp [hj]

theorem isJpeg_extension_filter_witness :
    ".jpg".toList <:+ "x.jpg".toList ∨ ".jpeg".toList <:+ "x.jpg".toList :=
  (isJpeg_extension_filter []
    ⟨[⟨true, "X.JPG".toList, some ⟨"2021:01:01 10:00:00".toList, "Canon EOS".toList⟩⟩,
      ⟨true, "x.png".toList, some ⟨"2021:01:01 10:00:00".toList, "Canon EOS".toList⟩⟩], none⟩
    [] [] []
    [⟨"x.jpg".toList, ⟨"2021:01:01".toList, "Canon EOS".toList⟩, false, false, false⟩]).2.1
    (by decide) _ (List.mem_singleton.2 rfl)

/-! ### Order of the results and reported names -/

theorem forall₂_filter_filterMap {α β : Type} (g : α → Option β) (l : List α) :
    List.Forall₂ (fun a b => g a = some b) (l.filter fun a => (g a).isSome) (l.filterMap g) := by
  induction l with
  | nil => exact List.Forall₂.nil
  | cons a l ih =>
    cases h : g a with
    | none => simpa [List.filter_cons, List.filterMap_cons, h] using ih
    | some b =>
      simp only [List.filter_cons, List.filterMap_cons, h, Option.isSome_some, if_true]
      exact List.Forall₂.cons h ih

theorem findFile_forall₂ (dir : Traversal) (d m n : List Char) (res : List fileMatch)
    (h : findFile dir d m n = .value res) :
    res = dir.entries.filterMap (emitted d m n)
    ∧ List.Forall₂ (fun e f => visitEntry d m n e = .value (some f))
        (dir.entries.filter fun e => (emitted d m n e).isSome) res := by
  obtain ⟨h1, _⟩ := findFileLoop_eq_value d m n dir.entries [] res h
  rw [List.nil_append] at h1
  refine ⟨h1, ?_⟩
  rw [h1]
  exact (forall₂_filter_filterMap (emitted d m n) dir.entries).imp
    (fun e f hef => (emitted_eq_some d m n e f).1 hef)

theorem forall₂_map_filename (d m n : List Char) :
    ∀ (kept : List DirEntry) (res : List fileMatch),
      List.Forall₂ (fun e f => visitEntry d m n e = .value (some f)) kept res →
      res.map (fun f => f.filename) = kept.map (fun e => toLower e.filename) := by
  intro kept res h
  induction h with
  | nil => rfl
  | cons hef _ ih =>
    obtain ⟨_, _, _, md, _, _, _, rfl⟩ := (visitEntry_eq_some_iff d m n _ _).1 hef
    simp only [List.map_cons, ih]

theorem matchWildcard_candidate_toLower (p s : List Char) :
    matchWildcard p (toLower s) = matchWildcard p s := by
  simp only [matchWildcard, toLower_idem]

/-- C13: the vector that `findFile` returns lists the qualifying entries of the
traversal once each and in traversal order: it is the traversal with the
non-qualifying entries left out, entry by entry, so the reported names are a
subsequence of the traversed names, and it is empty when no entry qualifies. -/
theorem findFile_traversal_order (dir : Traversal) (d m n : List Char) (res : List fileMatch)
    (h : findFile dir d m n = .value res) :
    res = dir.entries.filterMap (emitted d m n)
    ∧ (dir.entries.filter fun e => (emitted d m n e).isSome).Sublist dir.entries
    ∧ List.Forall₂ (fun e f => visitEntry d m n e = .value (some f))
        (dir.entries.filter fun e => (emitted d m n e).isSome) res
    ∧ (res.map fun f => f.filename).Sublist (dir.entries.map fun e => toLower e.filename)
    ∧ res.length ≤ dir.entries.length
    ∧ ((∀ e ∈ dir.entries, ∀ f, visitEntry d m n e ≠ .value (some f)) → res = []) := by
  obtain ⟨h1, h2⟩ := findFile_forall₂ dir d m n res h
  have hsub : (dir.entries.filter fun e => (emitted d m n e).isSome).Sublist dir.entries :=
    List.filter_sublist _
  have hnames := forall₂_map_filename d m n _ _ h2
  refine ⟨h1, hsub, h2, ?_, ?_, ?_⟩
  · rw [hnames]
    exact hsub.map _
  · rw [← h2.length_eq]
    exact hsub.length_le
  · intro hnone
    rw [h1, List.filterMap_eq_nil_iff]
    intro e he
    cases hv : emitted d m n e with
    | none => rfl
    | some f => exact absurd ((emitted_eq_some d m n e f).1 hv) (hnone e he f)

theorem findFile_traversal_order_witness :
    ([⟨"a.jpg".toList, ⟨"2021:01:01".toList, "Canon EOS".toList⟩, false, true, false⟩,
      ⟨"c.jpeg".toList, ⟨"2021:01:01".toList, "Nikon D90".toList⟩, false, true, false⟩]
        : List fileMatch)
      = List.filterMap (emitted "2021:01:01".toList [] [])
          [⟨true, "a.jpg".toList, some ⟨"2021:01:01 10:00:00".toList, "Canon EOS".toList⟩⟩,
           ⟨true, "b.jpg".toList, some ⟨"2022:02:02 10:00:00".toList, "Canon EOS".toList⟩⟩,
           ⟨false, "d.jpg".toList, none⟩,
           ⟨true, "C.JPEG".toList, some ⟨"2021:01:01 12:00:00".toList, "Nikon D90".toList⟩⟩] :=
  (findFile_traversal_order
    ⟨[⟨true, "a.jpg".toList, some ⟨"2021:01:01 10:00:00".toList, "Canon EOS".toList⟩⟩,
      ⟨true, "b.jpg".toList, some ⟨"2022:02:02 10:00:00".toList, "Canon EOS".toList⟩⟩,
      ⟨false, "d.jpg".toList, none⟩,
      ⟨true, "C.JPEG".toList, some ⟨"2021:01:01 12:00:00".toList, "Nikon D90".toList⟩⟩], none⟩
    "2021:01:01".toList [] []
    [⟨"a.jpg".toList, ⟨"2021:01:01".toList, "Canon EOS".toList⟩, false, true, false⟩,
     ⟨"c.jpeg".toList, ⟨"2021:01:01".toList, "Nikon D90".toList⟩, false, true, false⟩]
    (by decide)).1

/-- C18: every entry that `findFile` returns carries the lowercased on-disk name of
its file, so its name is its own lowercased form, a file stored as `PHOTO.JPG` is
reported as `photo.jpg`, and the name filter gives the same outcome on the reported
name as on the on-disk name. -/
theorem findFile_filename_lowercased (dir : Traversal) (d m n : List Char)
    (res : List fileMatch) (h : findFile dir d m n = .value res) :
    (res.map fun f => f.filename)
      = (dir.entries.filter fun e => (emitted d m n e).isSome).map (fun e => toLower e.filename)
    ∧ (∀ f ∈ res, ∃ e ∈ dir.entries, visitEntry d m n e = .value (some f)
        ∧ f.filename = toLower e.filename
        ∧ matchWildcard n f.filename = matchWildcard n e.filename)
    ∧ (∀ f ∈ res, toLower f.filename = f.filename)
    ∧ toLower "PHOTO.JPG".toList = "photo.jpg".toList := by
  obtain ⟨_, h2⟩ := findFile_forall₂ dir d m n res h
  have hmem : ∀ f ∈ res, ∃ e ∈ dir.entries, visitEntry d m n e = .value (some f)
      ∧ f.filename = toLower e.filename := by
    intro f hf
    obtain ⟨e, he, hv⟩ := (mem_findFile dir d m n res h f).1 hf
    obtain ⟨_, _, _, md, _, _, _, rfl⟩ := (visitEntry_eq_some_iff d m n e f).1 hv
    exact ⟨e, he, hv, rfl⟩
  refine ⟨forall₂_map_filename d m n _ _ h2, ?_, ?_, by decide⟩
  · intro f hf
    obtain ⟨e, he, hv, hname⟩ := hmem f hf
    exact ⟨e, he, hv, hname, by rw [hname, matchWildcard_candidate_toLower]⟩
  · intro f hf
    obtain ⟨e, _, _, hname⟩ := hmem f hf
    rw [hname, toLower_idem]

theorem findFile_filename_lowercased_witness :
    List.map (fun f => f.filename)
        [(⟨"photo.jpg".toList, ⟨"2021:01:01".toList, "Canon EOS".toList⟩, true, false, false⟩
            : fileMatch)]
      = List.map (fun e => toLower e.filename)
          (List.filter (fun e => (emitted [] [] "Photo.jpg".toList e).isSome)
            [⟨true, "PHOTO.JPG".toList, some ⟨"2021:01:01 10:00:00".toList, "Canon EOS".toList⟩⟩,
             ⟨true, "other.jpg".toList, some ⟨"2021:01:01 10:00:00".toList, "Canon EOS".toList⟩⟩]) :=
  (findFile_filename_lowercased
    ⟨[⟨true, "PHOTO.JPG".toList, some ⟨"2021:01:01 10:00:00".toList, "Canon EOS".toList⟩⟩,
      ⟨true, "other.jpg".toList, some ⟨"2021:01:01 10:00:00".toList, "Canon EOS".toList⟩⟩], none⟩
    [] [] "Photo.jpg".toList
    [⟨"photo.jpg".toList, ⟨"2021:01:01".toList, "Canon EOS".toList⟩, true, false, false⟩]
    (by decide)).1

/-! ## Argument handling -/

theorem isHelpFlag_of_isValueFlag (arg : List Char) (h : isValueFlag arg = true) :
    isHelpFlag arg = false := by
  simp only [isValueFlag, Bool.or_eq_true, decide_eq_true_eq] at h
  rcases h with ((((h | h) | h) | h) | h) | h <;> rw [h] <;> decide

theorem optionLoop_reaches_help (programName directory h : List Char)
    (tail : List (List Char)) (hh : isHelpFlag h = true) :
    ∀ (valued : List (List Char × List Char)) (filters : Filters),
      (∀ q ∈ valued, isValueFlag q.1 = true) →
      optionLoop programName directory (flagsWithValues valued ++ h :: tail) filters
        = .exit 0 (printUsage programName) := by
  intro valued
  induction valued with
  | nil =>
    intro filters _
    have hnil : flagsWithValues [] ++ h :: tail = h :: tail := by simp [flagsWithValues]
    rw [hnil]
    unfold optionLoop
    simp [hh]
  | cons q valued ih =>
    intro filters hq
    have hv : isValueFlag q.1 = true := hq q (List.mem_cons_self _ _)
    have hrest : ∀ q' ∈ valued, isValueFlag q'.1 = true :=
      fun q' hq' => hq q' (List.mem_cons_of_mem _ hq')
    have hnh := isHelpFlag_of_isValueFlag q.1 hv
    have hcons : flagsWithValues (q :: valued) ++ h :: tail
        = q.1 :: q.2 :: (flagsWithValues valued ++ h :: tail) := by
      simp [flagsWithValues]
    rw [hcons]
    unfold optionLoop
    simp only [hnh, Bool.false_eq_true, if_false]
    simp only [isValueFlag, Bool.or_eq_true, decide_eq_true_eq] at hv
    split
    · exact ih _ hrest
    · split
      · exact ih _ hrest
      · split
        · exact ih _ hrest
        · rename_i h1 h2 h3
          rcases hv with ((((h | h) | h) | h) | h) | h
          · exact absurd (Or.inl h) h1
          · exact absurd (Or.inr h) h1
          · exact absurd (Or.inl h) h2
          · exact absurd (Or.inr h) h2
          · exact absurd (Or.inl h) h3
          · exact absurd (Or.inr h) h3

/-- C5, as the claim states it, fails: with a first argument that is no option name
and names no existing path, `main` returns 1 with the directory error although
`--help` follows. -/
theorem main_help_after_missing_directory :
    main ⟨fun _ => false, fun _ => false, fun _ => ⟨[], none⟩⟩
        ["prog".toList, "nowhere".toList, "--help".toList]
      = .value ⟨1, [], "Error: Directory 'nowhere' does not exist\n".toList⟩ := by
  decide

/-- C5, amended: when the first argument is an option name or names an existing
directory, and the arguments that the option loop reads before `-h` or `--help`
are value-taking flags each followed by its value, `main` writes the usage text and
returns 0 without reaching the scan; and when the first argument is no option name
and names no existing path, `main` returns 1 with the directory error whatever
follows. -/
theorem main_help_in_option_position (fs : FileSystem) (programName first h : List Char)
    (rest tail : List (List Char)) (valued : List (List Char × List Char))
    (hvalued : ∀ q ∈ valued, isValueFlag q.1 = true) (hh : isHelpFlag h = true)
    (hfirst : (isOptionName first = true ∧ first :: rest = flagsWithValues valued ++ h :: tail)
      ∨ (isOptionName first = false ∧ fs.pathExists first = true ∧ fs.isDirectory first = true
          ∧ rest = flagsWithValues valued ++ h :: tail)) :
    parseArgs fs (programName :: first :: rest) = .exit 0 (printUsage programName)
    ∧ main fs (programName :: first :: rest)
        = .value { exitCode := 0, cout := [], cerr := printUsage programName }
    ∧ ∀ (fs' : FileSystem) (first' : List Char) (rest' : List (List Char)),
        isOptionName first' = false → fs'.pathExists first' = false →
        main fs' (programName :: first' :: rest')
          = .value { exitCode := 1, cout := []
                     cerr := "Error: Directory '".toList ++ first'
                       ++ "' does not exist\n".toList } := by
  have hparse : parseArgs fs (programName :: first :: rest)
      = .exit 0 (printUsage programName) := by
    rcases hfirst with ⟨h1, h2⟩ | ⟨h1, h2, h3, h4⟩
    · simp only [parseArgs, h1, if_true]
      rw [h2]
      exact optionLoop_reaches_help programName _ h tail hh valued _ hvalued
    · simp only [parseArgs, h1, h2, h3, Bool.false_eq_true, if_false, Bool.not_true]
      rw [h4]
      exact optionLoop_reaches_help programName _ h tail hh valued _ hvalued
  refine ⟨hparse, ?_, ?_⟩
  · simp [main, hparse]
  · intro fs' first' rest' h1 h2
    simp [main, parseArgs, h1, h2]

theorem main_help_in_option_position_witness :
    main ⟨fun d => decide (d = "pics".toList), fun d => decide (d = "pics".toList),
          fun _ => ⟨[], none⟩⟩
        ["prog".toList, "pics".toList, "-n".toList, "--help".toList, "-d".toList,
          "2021:01:01".toList, "-h".toList, "--bogus".toList]
      = .value { exitCode := 0, cout := [], cerr := printUsage "prog".toList } :=
  (main_help_in_option_position
    ⟨fun d => decide (d = "pics".toList), fun d => decide (d = "pics".toList),
      fun _ => ⟨[], none⟩⟩
    "prog".toList "pics".toList "-h".toList
    ["-n".toList, "--help".toList, "-d".toList, "2021:01:01".toList, "-h".toList,
      "--bogus".toList]
    ["--bogus".toList]
    [("-n".toList, "--help".toList), ("-d".toList, "2021:01:01".toList)]
    (by decide) (by decide) (Or.inr ⟨by decide, by decide, by decide, by decide⟩)).2.1

/-! ### Flags with and without a value, unknown options -/

theorem optionLoop_flag_value (programName directory flag v : List Char)
    (rest : List (List Char)) (filters : Filters) (hv : isValueFlag flag = true) :
    optionLoop programName directory (flag :: v :: rest) filters
      = optionLoop programName directory rest (setFilter flag v filters) := by
  have hnh := isHelpFlag_of_isValueFlag flag hv
  conv_lhs => unfold optionLoop
  simp only [hnh, Bool.false_eq_true, if_false, setFilter]
  simp only [isValueFlag, Bool.or_eq_true, decide_eq_true_eq] at hv
  split
  · rfl
  · split
    · rfl
    · split
      · rfl
      · rename_i h1 h2 h3
        rcases hv with ((((h | h) | h) | h) | h) | h
        · exact absurd (Or.inl h) h1
        · exact absurd (Or.inr h) h1
        · exact absurd (Or.inl h) h2
        · exact absurd (Or.inr h) h2
        · exact absurd (Or.inl h) h3
        · exact absurd (Or.inr h) h3

theorem optionLoop_flag_last (programName directory flag : List Char) (filters : Filters)
    (hv : isValueFlag flag = true) :
    optionLoop programName directory [flag] filters = .scan directory filters := by
  have hnh := isHelpFlag_of_isValueFlag flag hv
  have hnil : optionLoop programName directory [] filters = .scan directory filters := by
    unfold optionLoop
    rfl
  conv_lhs => unfold optionLoop
  simp only [hnh, Bool.false_eq_true, if_false, hnil]
  simp only [isValueFlag, Bool.or_eq_true, decide_eq_true_eq] at hv
  split
  · rfl
  · split
    · rfl
    · split
      · rfl
      · rename_i h1 h2 h3
        rcases hv with ((((h | h) | h) | h) | h) | h
        · exact absurd (Or.inl h) h1
        · exact absurd (Or.inr h) h1
        · exact absurd (Or.inl h) h2
        · exact absurd (Or.inr h) h2
        · exact absurd (Or.inl h) h3
        · exact absurd (Or.inr h) h3

theorem optionLoop_unknown (programName directory x : List Char) (rest : List (List Char))
    (filters : Filters) (hx : isOptionName x = false) :
    optionLoop programName directory (x :: rest) filters
      = .exit 1 ("Unknown option: ".toList ++ x ++ "\n".toList ++ printUsage programName) := by
  simp only [isOptionName, Bool.or_eq_false_iff, decide_eq_false_iff_not] at hx
  obtain ⟨⟨⟨⟨⟨⟨⟨h1, h2⟩, h3⟩, h4⟩, h5⟩, h6⟩, h7⟩, h8⟩ := hx
  unfold optionLoop
  simp only [isHelpFlag, h1, h2, h3, h4, h5, h6, h7, h8, decide_False, Bool.or_false,
    Bool.false_eq_true, if_false, or_self]

theorem optionLoop_valued (programName directory : List Char) (tail : List (List Char)) :
    ∀ (valued : List (List Char × List Char)) (filters : Filters),
      (∀ q ∈ valued, isValueFlag q.1 = true) →
      optionLoop programName directory (flagsWithValues valued ++ tail) filters
        = optionLoop programName directory tail (applyValued valued filters) := by
  intro valued
  induction valued with
  | nil =>
    intro filters _
    simp [flagsWithValues, applyValued]
  | cons q valued ih =>
    intro filters hq
    have hcons : flagsWithValues (q :: valued) ++ tail
        = q.1 :: q.2 :: (flagsWithValues valued ++ tail) := by
      simp [flagsWithValues]
    rw [hcons, optionLoop_flag_value _ _ _ _ _ _ (hq q (List.mem_cons_self _ _)),
      ih _ (fun q' hq' => hq q' (List.mem_cons_of_mem _ hq'))]
    rfl

theorem filterOf_applyValued (flag : List Char) :
    ∀ (valued : List (List Char × List Char)) (filters : Filters),
      (∀ q ∈ valued, ∀ v f, filterOf flag (setFilter q.1 v f) = filterOf flag f) →
      filterOf flag (applyValued valued filters) = filterOf flag filters := by
  intro valued
  induction valued with
  | nil => intro filters _; rfl
  | cons q valued ih =>
    intro filters hq
    have h1 := ih (setFilter q.1 q.2 filters)
      (fun q' hq' => hq q' (List.mem_cons_of_mem _ hq'))
    have h2 := hq q (List.mem_cons_self _ _) q.2 filters
    simp only [applyValued, List.foldl_cons] at h1 ⊢
    rw [h1, h2]

theorem filterOf_setFilter (flag v : List Char) (filters : Filters)
    (hv : isValueFlag flag = true) : filterOf flag (setFilter flag v filters) = v := by
  simp only [isValueFlag, Bool.or_eq_true, decide_eq_true_eq] at hv
  rcases hv with ((((h | h) | h) | h) | h) | h <;> subst h <;> rfl

/-- C11, as the claim states it, fails: the last argument `-n` has no value, and the
name filter is not empty afterwards but has the value that the earlier `-n foo`
gave it. -/
theorem parseArgs_trailing_flag_keeps_earlier_value :
    parseArgs ⟨fun _ => true, fun _ => true, fun _ => ⟨[], none⟩⟩
        ["prog".toList, "pics".toList, "-n".toList, "foo".toList, "-n".toList]
      = .scan "pics".toList ⟨"foo".toList, [], []⟩ := by
  decide

/-- C11, amended: when the last argument is a value-taking flag that the option loop
reaches, `main` reports no error and goes on to the scan with exactly the filters
that the earlier arguments set, so the filter of that flag is as they left it and
is empty when none of them assigns it; and a flag followed by an argument takes
that argument as its value, whatever it is, and the loop goes on behind it. -/
theorem main_trailing_flag_ignored (fs : FileSystem) (programName first flag : List Char)
    (rest : List (List Char)) (valued : List (List Char × List Char))
    (hvalued : ∀ q ∈ valued, isValueFlag q.1 = true) (hflag : isValueFlag flag = true)
    (hfirst : (isOptionName first = true ∧ first :: rest = flagsWithValues valued ++ [flag])
      ∨ (isOptionName first = false ∧ fs.pathExists first = true ∧ fs.isDirectory first = true
          ∧ rest = flagsWithValues valued ++ [flag])) :
    parseArgs fs (programName :: first :: rest)
        = .scan (if isOptionName first = true then ".".toList else first)
            (applyValued valued ⟨[], [], []⟩)
    ∧ ((∀ q ∈ valued, ∀ v f, filterOf flag (setFilter q.1 v f) = filterOf flag f) →
        filterOf flag (applyValued valued ⟨[], [], []⟩) = [])
    ∧ (∀ (directory v : List Char) (tail : List (List Char)) (filters : Filters),
        optionLoop programName directory (flag :: v :: tail) filters
          = optionLoop programName directory tail (setFilter flag v filters)
        ∧ filterOf flag (setFilter flag v filters) = v) := by
  refine ⟨?_, ?_, ?_⟩
  · rcases hfirst with ⟨h1, h2⟩ | ⟨h1, h2, h3, h4⟩
    · simp only [parseArgs, h1, if_true]
      rw [h2, optionLoop_valued _ _ _ _ _ hvalued, optionLoop_flag_last _ _ _ _ hflag]
    · simp only [parseArgs, h1, h2, h3, Bool.false_eq_true, if_false, Bool.not_true]
      rw [h4, optionLoop_valued _ _ _ _ _ hvalued, optionLoop_flag_last _ _ _ _ hflag]
  · intro h
    rw [filterOf_applyValued flag valued _ h]
    simp only [isValueFlag, Bool.or_eq_true, decide_eq_true_eq] at hflag
    rcases hflag with ((((h | h) | h) | h) | h) | h <;> subst h <;> rfl
  · intro directory v tail filters
    exact ⟨optionLoop_flag_value _ _ _ _ _ _ hflag, filterOf_setFilter _ _ _ hflag⟩

theorem main_trailing_flag_ignored_witness :
    parseArgs ⟨fun d => decide (d = "pics".toList), fun d => decide (d = "pics".toList),
          fun _ => ⟨[], none⟩⟩
        ["prog".toList, "pics".toList, "-d".toList, "2021:01:01".toList, "-c".toList,
          "--help".toList, "--name".toList]
      = .scan (if isOptionName "pics".toList = true then ".".toList else "pics".toList)
          (applyValued [("-d".toList, "2021:01:01".toList), ("-c".toList, "--help".toList)]
            ⟨[], [], []⟩) :=
  (main_trailing_flag_ignored
    ⟨fun d => decide (d = "pics".toList), fun d => decide (d = "pics".toList),
      fun _ => ⟨[], none⟩⟩
    "prog".toList "pics".toList "--name".toList
    ["-d".toList, "2021:01:01".toList, "-c".toList, "--help".toList, "--name".toList]
    [("-d".toList, "2021:01:01".toList), ("-c".toList, "--help".toList)]
    (by decide) (by decide) (Or.inr ⟨by decide, by decide, by decide, by decide⟩)).1

/-- C12, as the claim states it, fails for the first argument: an unrecognized flag
there is taken as the directory, and `main` returns 1 with the directory error and
without the `Unknown option` line or the usage text. -/
theorem main_unknown_first_argument :
    main ⟨fun _ => false, fun _ => false, fun _ => ⟨[], none⟩⟩
        ["prog".toList, "--bogus".toList]
      = .value ⟨1, [], "Error: Directory '--bogus' does not exist\n".toList⟩
    ∧ main ⟨fun _ => false, fun _ => false, fun _ => ⟨[], none⟩⟩
        ["prog".toList, "--bogus".toList]
      ≠ .value ⟨1, [], "Unknown option: --bogus\n".toList ++ printUsage "prog".toList⟩ := by
  decide

/-- C12, amended: when the first argument is an option name or names an existing
directory, the first unrecognized argument that the option loop reaches makes
`main` write `Unknown option: X` and the usage text and return 1 without reaching
the scan; an unrecognized first argument is the directory, and `main` returns 1
with the directory error when it names no existing path. -/
theorem main_unknown_option (fs : FileSystem) (programName first x : List Char)
    (rest tail : List (List Char)) (valued : List (List Char × List Char))
    (hvalued : ∀ q ∈ valued, isValueFlag q.1 = true) (hx : isOptionName x = false)
    (hfirst : (isOptionName first = true ∧ first :: rest = flagsWithValues valued ++ x :: tail)
      ∨ (isOptionName first = false ∧ fs.pathExists first = true ∧ fs.isDirectory first = true
          ∧ rest = flagsWithValues valued ++ x :: tail)) :
    parseArgs fs (programName :: first :: rest)
        = .exit 1 ("Unknown option: ".toList ++ x ++ "\n".toList ++ printUsage programName)
    ∧ main fs (programName :: first :: rest)
        = .value { exitCode := 1, cout := []
                   cerr := "Unknown option: ".toList ++ x ++ "\n".toList
                     ++ printUsage programName }
    ∧ ∀ (fs' : FileSystem) (rest' : List (List Char)), fs'.pathExists x = false →
        main fs' (programName :: x :: rest')
          = .value { exitCode := 1, cout := []
                     cerr := "Error: Directory '".toList ++ x
                       ++ "' does not exist\n".toList } := by
  have hparse : parseArgs fs (programName :: first :: rest)
      = .exit 1 ("Unknown option: ".toList ++ x ++ "\n".toList ++ printUsage programName) := by
    rcases hfirst with ⟨h1, h2⟩ | ⟨h1, h2, h3, h4⟩
    · simp only [parseArgs, h1, if_true]
      rw [h2, optionLoop_valued _ _ _ _ _ hvalued, optionLoop_unknown _ _ _ _ _ hx]
    · simp only [parseArgs, h1, h2, h3, Bool.false_eq_true, if_false, Bool.not_true]
      rw [h4, optionLoop_valued _ _ _ _ _ hvalued, optionLoop_unknown _ _ _ _ _ hx]
  refine ⟨hparse, ?_, ?_⟩
  · simp [main, hparse]
  · intro fs' rest' h
    simp [main, parseArgs, hx, h]

theorem main_unknown_option_witness :
    main ⟨fun d => decide (d = "pics".toList), fun d => decide (d = "pics".toList),
          fun _ => ⟨[], none⟩⟩
        ["prog".toList, "pics".toList, "-n".toList, "*.jpg".toList, "--bogus".toList,
          "--help".toList]
      = .value { exitCode := 1, cout := []
                 cerr := "Unknown option: ".toList ++ "--bogus".toList ++ "\n".toList
                   ++ printUsage "prog".toList } :=
  (main_unknown_option
    ⟨fun d => decide (d = "pics".toList), fun d => decide (d = "pics".toList),
      fun _ => ⟨[], none⟩⟩
    "prog".toList "pics".toList "--bogus".toList
    ["-n".toList, "*.jpg".toList, "--bogus".toList, "--help".toList] ["--help".toList]
    [("-n".toList, "*.jpg".toList)]
    (by decide) (by decide) (Or.inr ⟨by decide, by decide, by decide, by decide⟩)).2.1

/-! ## The report -/

theorem setwLeft_spec (width : Nat) (text : List Char) :
    text <+: setwLeft width text
    ∧ (setwLeft width text).length = max width text.length
    ∧ (setwLeft width text).drop text.length = List.replicate (width - text.length) ' ' := by
  unfold setwLeft
  refine ⟨List.prefix_append _ _, ?_, ?_⟩
  · rw [List.length_append, List.length_replicate]
    omega
  · rw [List.drop_left]

/-- C14: the match indicator has exactly three characters, `n`, `d`, `c` at the
positions 0, 1, 2 of the flags that are set and `-` elsewhere; a row is the indicator
padded with spaces to width 8, the filename padded to width 25, the camera model
padded to width 23 and the capture date padded to width 20, one space between
fields; and once the scan is reached `main` returns 0 with one row per match exactly
when the result is non-empty, and 1 with `No files found` when it is empty. -/
theorem main_rows_and_exit_code (m : fileMatch) (fs : FileSystem) (argv : List (List Char))
    (directory : List Char) (filters : Filters) (result : List fileMatch)
    (hparse : parseArgs fs argv = .scan directory filters)
    (hfind : findFile (fs.walk directory) filters.dateMatch filters.modelMatch
      filters.nameMatch = .value result) :
    (matchedBy m).length = 3
    ∧ (matchedBy m)[0]? = some (if m.matchedByName = true then 'n' else '-')
    ∧ (matchedBy m)[1]? = some (if m.matchedByDate = true then 'd' else '-')
    ∧ (matchedBy m)[2]? = some (if m.matchedByModel = true then 'c' else '-')
    ∧ setwLeft 8 (matchedBy m) = matchedBy m ++ List.replicate 5 ' '
    ∧ printRow m = setwLeft 8 (matchedBy m) ++ [' '] ++ setwLeft 25 m.filename ++ [' ']
        ++ setwLeft 23 m.metadata.cameraModel ++ [' ']
        ++ setwLeft 20 m.metadata.captureDate ++ ['\n']
    ∧ (∀ (width : Nat) (text : List Char), text <+: setwLeft width text
        ∧ (setwLeft width text).length = max width text.length
        ∧ (setwLeft width text).drop text.length = List.replicate (width - text.length) ' ')
    ∧ ∃ run, main fs argv = .value run
        ∧ (run.exitCode = 0 ↔ result ≠ [])
        ∧ (result ≠ [] → run.cout = (result.map printRow).flatten)
        ∧ (result = [] → run.exitCode = 1 ∧ run.cout = []
            ∧ "No files found\n".toList <:+ run.cerr) := by
  refine ⟨rfl, rfl, rfl, rfl, rfl, rfl, setwLeft_spec, ?_⟩
  cases result with
  | nil =>
    refine ⟨_, by simp only [main, hparse, hfind, Outcome.bind]; rfl, ?_, ?_, ?_⟩
    · simp
    · intro h; exact absurd rfl h
    · intro _
      exact ⟨rfl, rfl, List.suffix_append _ _⟩
  | cons f r =>
    refine ⟨_, by simp only [main, hparse, hfind, Outcome.bind]; rfl, ?_, ?_, ?_⟩
    · simp
    · intro _; rfl
    · intro h; cases h

theorem main_rows_and_exit_code_witness :
    ∃ run, main ⟨fun d => decide (d = "pics".toList), fun d => decide (d = "pics".toList),
          fun _ => ⟨[⟨true, "A.JPG".toList,
            some ⟨"2021:01:01 10:00:00".toList, "Canon EOS".toList⟩⟩], none⟩⟩
        ["prog".toList, "pics".toList, "-d".toList, "2021:01:01".toList] = .value run
      ∧ (run.exitCode = 0 ↔
          [(⟨"a.jpg".toList, ⟨"2021:01:01".toList, "Canon EOS".toList⟩, false, true, false⟩
              : fileMatch)] ≠ [])
      ∧ ([(⟨"a.jpg".toList, ⟨"2021:01:01".toList, "Canon EOS".toList⟩, false, true, false⟩
              : fileMatch)] ≠ [] →
          run.cout = (List.map printRow
            [⟨"a.jpg".toList, ⟨"2021:01:01".toList, "Canon EOS".toList⟩, false, true, false⟩]).flatten)
      ∧ ([(⟨"a.jpg".toList, ⟨"2021:01:01".toList, "Canon EOS".toList⟩, false, true, false⟩
              : fileMatch)] = [] →
          run.exitCode = 1 ∧ run.cout = [] ∧ "No files found\n".toList <:+ run.cerr) :=
  (main_rows_and_exit_code
    ⟨"a.jpg".toList, ⟨"2021:01:01".toList, "Canon EOS".toList⟩, false, true, false⟩
    ⟨fun d => decide (d = "pics".toList), fun d => decide (d = "pics".toList),
      fun _ => ⟨[⟨true, "A.JPG".toList,
        some ⟨"2021:01:01 10:00:00".toList, "Canon EOS".toList⟩⟩], none⟩⟩
    ["prog".toList, "pics".toList, "-d".toList, "2021:01:01".toList]
    "pics".toList ⟨[], "2021:01:01".toList, []⟩
    [⟨"a.jpg".toList, ⟨"2021:01:01".toList, "Canon EOS".toList⟩, false, true, false⟩]
    (by decide) (by decide)).2.2.2.2.2.2.2

end ImageMetadataListing
